import Mathlib

/-!
Verification of the computational core of `world-metros-voronoi-diagram`
(`src/voronoi_generator.py`, mirrored by `src/main.py`).

The core pipeline is: station deduplication (`_fetch_stations`, lines
110-126), Voronoi partition construction and clipping to the city
boundary (`_create_voronoi`, lines 184-199), ownership resolution of
each clipped cell by nearest station to its centroid (`_create_voronoi`,
lines 201-214), and greedy adjacency coloring
(`_assign_colors_to_polygons`, lines 28-74).

Geometry is supplied by an external library (shapely / geopandas), which
the repository treats as a trusted collaborator.  We embed geometries as
finite lists of rational plane points: a `Geom` is the set of sample
points of a region, intersection is set intersection of samples,
emptiness is list emptiness, the centroid is the arithmetic mean of the
samples (shapely's `POINT EMPTY` for an empty geometry becomes `none`),
and the unbounded Voronoi partition is computed over a finite sample
`grid` standing for the plane.  Station coordinates are rational pairs;
the UTM reprojection of the source is the identity in this model (the
model already works in one planar system).
-/

namespace MetroVoronoi

/-- A planar point with rational coordinates. -/
abbrev Q2 : Type := ℚ × ℚ

/-- Squared planar Euclidean distance (the square root is monotone, so
nearest-by-distance and nearest-by-squared-distance agree). -/
def sqDist (a b : Q2) : ℚ :=
  (a.1 - b.1) ^ 2 + (a.2 - b.2) ^ 2

/-- A geometry, embedded as the finite list of its sample points. -/
abbrev Geom : Type := List Q2

/-- shapely `geom.is_empty`. -/
def isEmptyG (g : Geom) : Bool :=
  g.isEmpty

/-- shapely `a.intersection(b)`: the sample points common to both. -/
def interG (a b : Geom) : Geom :=
  a.filter (fun p => b.contains p)

/-- shapely `a.touches(b) or a.intersects(b)` (line 49-50 of
`voronoi_generator.py`): in the sample model both predicates reduce to
the two geometries sharing a sample point, and `intersects` subsumes
`touches`. -/
def adjacentG (a b : Geom) : Bool :=
  a.any (fun p => b.contains p)

/-- shapely `geom.centroid`: the arithmetic mean of the sample points;
`none` models `POINT EMPTY`, the centroid of an empty geometry. -/
def centroidG (g : Geom) : Option Q2 :=
  if g.isEmpty then none
  else some (((g.map Prod.fst).sum / g.length, (g.map Prod.snd).sum / g.length))

/-- A station record: the `name` column plus the point geometry.  The
same shape serves for raw station rows (names not yet unique) and for
deduplicated stations. -/
structure Station where
  name : String
  loc : Q2
deriving DecidableEq, Repr

/-! ### Station deduplication (`_fetch_stations`, lines 110-126)

`stations.dissolve(by="name", aggfunc="first")` groups the rows by name
(pandas sorts the group keys), replaces each group's geometry by the
`unary_union` of its member points — a set-theoretic union, so coincident
duplicate points collapse to one — and `ensure_point` then reduces a
`MultiPoint` union to its centroid while leaving a `Point` unchanged. -/

/-- Insertion step of the name sort.  `compare` on `String` plays the
role of pandas' lexicographic ordering of group keys. -/
def insertByName (s : Station) : List Station → List Station
  | [] => [s]
  | t :: ts =>
      if compare s.name t.name ≠ Ordering.gt then s :: t :: ts
      else t :: insertByName s ts

/-- Dissolve emits one row per group key, keys sorted. -/
def sortByName (l : List Station) : List Station :=
  l.foldr insertByName []

/-- The `unary_union` of the point geometries of the rows named `nm`:
the distinct locations among them (union is a set operation, so
coincident points count once). -/
def groupUnion (rows : List Station) (nm : String) : List Q2 :=
  ((rows.filter (fun r => r.name = nm)).map Station.loc).dedup

/-- Embeds `ensure_point` (lines 118-124): a `Point` (singleton union) is kept
unchanged, a `MultiPoint` is replaced by its centroid.  (For a singleton
the centroid is the point itself, so this equals `centroidG` on every
non-empty union.) -/
def ensurePoint (g : List Q2) : Option Q2 :=
  match g with
  | [p] => some p
  | _ => centroidG g

/-- Embeds `_fetch_stations` lines 110-126: dissolve by name (one output row
per distinct name, sorted), geometry = union of the group's points
reduced to a single point by `ensure_point`. -/
def dedupStations (rows : List Station) : List Station :=
  (sortByName ((rows.map Station.name).dedup.map
      (fun nm => Station.mk nm (0, 0)))).filterMap
    (fun s => (ensurePoint (groupUnion rows s.name)).map (Station.mk s.name))

/-! ### The external geometry library's spatial services

`shapely.ops.voronoi_diagram` and `shapely.strtree.STRtree` are external
collaborators (spec §6); the source only calls them. -/

/-- Nearest point to `q` in a list together with its index; the earliest
point wins exact ties (a later point replaces an earlier one only when
strictly closer). -/
def nearestIdxAux (q : Q2) : List Q2 → Option (Nat × Q2)
  | [] => none
  | p :: rest =>
      match nearestIdxAux q rest with
      | none => some (0, p)
      | some (j, t) =>
          if sqDist q t < sqDist q p then some (j + 1, t) else some (0, p)

/-- Index of the generator nearest to `q` (first index on ties), or
`none` for an empty generator list. -/
def nearestIdx (pts : List Q2) (q : Q2) : Option Nat :=
  (nearestIdxAux q pts).map Prod.fst

/-- Modelled from the spec: `shapely.ops.voronoi_diagram`, the external
library's unbounded proximity-partition construction (spec §6 and
glossary: one region per generator, each region holding the locations at
least as close to its generator as to any other).  The unbounded plane
is restricted to the finite sample `grid`; ties go to the earliest
generator.  The library rejects an empty input collection, modelled as
`none`. -/
def voronoiDiagram (gens : List Q2) (grid : List Q2) : Option (List Geom) :=
  match gens with
  | [] => none
  | _ =>
      some ((List.range gens.length).map
        (fun i => grid.filter (fun p => nearestIdx gens p = some i)))

/-- Modelled from the spec: `STRtree.nearest` over the station list
(spec §4.3: "query the spatial index for the single nearest station
location"); the earliest station wins exact ties, a deterministic
choice.  `none` models the library's failure on an empty tree or an
empty query geometry (`POINT EMPTY` centroid). -/
def strNearest : List Station → Option Q2 → Option Station
  | _, none => none
  | [], some _ => none
  | s :: rest, some c =>
      match strNearest rest (some c) with
      | none => some s
      | some t => if sqDist c t.loc < sqDist c s.loc then some t else some s

/-! ### Partition construction and ownership (`_create_voronoi`, lines 177-219) -/

/-- Modelled from the spec: the error taxonomy of spec §7
(`InsufficientInputError`, `InvalidBoundaryError`,
`InternalInvariantError`).  The source of `voronoi_generator.py` defines
none of these classes; `libraryError` stands for an untyped failure
propagated from the external geometry library. -/
inductive CoreError where
  | insufficientInput
  | invalidBoundary
  | internalInvariant
  | libraryError
deriving DecidableEq, Repr

deriving instance DecidableEq for Except

/-- A clipped cell with its owning station resolved (`records` entries of
lines 210-214; the constant `linha` column is dropped). -/
structure OwnedCell where
  name : String
  geometry : Geom
deriving DecidableEq, Repr

/-- Embeds `_create_voronoi` lines 184-199, the Partition Builder: compute the
Voronoi diagram of the station points over the sample `grid` and clip by
the boundary.  Faithful to line 195-199: the filter `if not poly.is_empty`
tests the RAW region's emptiness and runs before the intersection with
`city_geom` is taken. -/
def partitionBuilder (stations : List Station) (boundary : Geom) (grid : List Q2) :
    Except CoreError (List Geom) :=
  match voronoiDiagram (stations.map Station.loc) grid with
  | none => .error .libraryError
  | some vor => .ok (((vor.filter (fun p => !isEmptyG p)).map (fun p => interG p boundary)))

/-- Embeds `_create_voronoi` lines 201-214, the Cell-Owner Resolver: for each
clipped polygon take its centroid and query the station tree for the
nearest station.  The code performs no degeneracy check on the cell:
an empty centroid (`POINT EMPTY`) is passed straight to the library
query, whose failure is `libraryError`. -/
def resolveOwners (stations : List Station) : List Geom → Except CoreError (List OwnedCell)
  | [] => .ok []
  | poly :: rest =>
      match strNearest stations (centroidG poly) with
      | none => .error .libraryError
      | some s =>
          match resolveOwners stations rest with
          | .error e => .error e
          | .ok cells => .ok (OwnedCell.mk s.name poly :: cells)

/-- Embeds `_create_voronoi` lines 184-219 in full: build the clipped partition,
then resolve each cell's owner. -/
def createVoronoi (stations : List Station) (boundary : Geom) (grid : List Q2) :
    Except CoreError (List OwnedCell) :=
  match partitionBuilder stations boundary grid with
  | .error e => .error e
  | .ok polys => resolveOwners stations polys

/-! ### Greedy adjacency coloring (`_assign_colors_to_polygons`, lines 28-74) -/

/-- Line 16-25: the fixed eight-color palette. -/
def VORONOI_COLORS : List String :=
  ["#e41a1c", "#377eb8", "#4daf4a", "#984ea3",
   "#ff7f00", "#ffff33", "#a65628", "#f781bf"]

/-- Lines 57-72, one iteration: the colors already assigned to the
neighbors of cell `i` are those of the adjacent cells `j` processed
before `i` (`colors_assigned` holds exactly the indices below `i` when
`i` is processed; `adjacency` is symmetric, built from the symmetric
touch/intersect predicate of lines 49-52).  `assigned` lists the colors
of cells `0..i-1` in order. -/
def neighborColors (adj : Nat → Nat → Bool) (assigned : List Nat) (i : Nat) : List Nat :=
  ((List.range i).filter (fun j => adj i j)).map (fun j => assigned.getD j 0)

/-- Lines 65-72: the first palette index not used by an already-colored
neighbor, else the fallback `i % len(VORONOI_COLORS)`. -/
def colorOfCell (adj : Nat → Nat → Bool) (assigned : List Nat) (i : Nat) : Nat :=
  match (List.range VORONOI_COLORS.length).find?
      (fun c => !(neighborColors adj assigned i).contains c) with
  | some c => c
  | none => i % VORONOI_COLORS.length

/-- The greedy loop of lines 57-72 run over cells `0..n-1`; the result
lists the palette index of each cell in order. -/
def assignLoop (adj : Nat → Nat → Bool) : Nat → List Nat
  | 0 => []
  | n + 1 => assignLoop adj n ++ [colorOfCell adj (assignLoop adj n) n]

/-- The cell-adjacency predicate of lines 46-52 read off the geometry
list. -/
def adjOf (gdf : List Geom) (i j : Nat) : Bool :=
  adjacentG (gdf.getD i []) (gdf.getD j [])

/-- Embeds `_assign_colors_to_polygons`, palette indices: `colors_assigned[i]`
for each `i` in order. -/
def assignColorIdx (gdf : List Geom) : List Nat :=
  assignLoop (adjOf gdf) gdf.length

/-- Embeds `_assign_colors_to_polygons` lines 39-74: the returned list
`[VORONOI_COLORS[colors_assigned[i]] for i in range(n)]` (the empty
input returns the empty list at line 41). -/
def assignColors (gdf : List Geom) : List String :=
  (assignColorIdx gdf).map (fun c => VORONOI_COLORS.getD c "")

/-- True exactly when the fallback branch of lines 70-72 fires for cell
`i`: the palette search finds every color already used by an
already-colored neighbor (computed against the final assignment, which
agrees with the assignment at iteration `i` on all earlier cells). -/
def fallbackAt (gdf : List Geom) (i : Nat) : Bool :=
  ((List.range VORONOI_COLORS.length).find?
    (fun c => !(neighborColors (adjOf gdf) (assignColorIdx gdf) i).contains c)).isNone

/-! ### The composed pipeline -/

/-- An owned cell with its assigned color (spec §3 `ColoredCell`). -/
structure ColoredCell where
  name : String
  geometry : Geom
  color : String
deriving DecidableEq, Repr

/-- The composed coverage pipeline of `generate_map` (lines 475-497):
deduplicate the raw station rows (`_fetch_stations`), build and resolve
the clipped partition (`_create_voronoi`), then color the cells
(`_assign_colors_to_polygons` inside `_create_map`). -/
def buildCoverage (rows : List Station) (boundary : Geom) (grid : List Q2) :
    Except CoreError (List ColoredCell) :=
  match createVoronoi (dedupStations rows) boundary grid with
  | .error e => .error e
  | .ok cells =>
      .ok (cells.zip (assignColors (cells.map OwnedCell.geometry)) |>.map
        (fun pr => ColoredCell.mk pr.1.name pr.1.geometry pr.2))

/-! ## General helper lemmas -/

section ConcreteEvaluation

/- Rational arithmetic is `@[irreducible]` at elaboration time; making it
semireducible lets `decide` evaluate the embedded pipeline on concrete
inputs in the kernel. -/
attribute [local semireducible] Rat.add Rat.mul Rat.inv Rat.sub

/-- A `filterMap` whose function is the identity on every member of the
list returns the list unchanged. -/
theorem filterMap_id_of_mem {α : Type} (l : List α) (f : α → Option α)
    (h : ∀ a ∈ l, f a = some a) : l.filterMap f = l := by
  induction l with
  | nil => rfl
  | cons x xs ih =>
      rw [List.filterMap_cons, h x (List.mem_cons_self x xs),
        ih (fun a ha => h a (List.mem_cons_of_mem x ha))]

/-- Inserting into the sorted list is a permutation of consing. -/
theorem insertByName_perm (s : Station) (l : List Station) :
    (insertByName s l).Perm (s :: l) := by
  induction l with
  | nil => simp [insertByName]
  | cons t ts ih =>
      by_cases h : compare s.name t.name ≠ Ordering.gt
      · simp [insertByName, h]
      · simp only [insertByName, if_neg h]
        exact (ih.cons t).trans (List.Perm.swap s t ts)

/-- Sorting by name permutes the rows. -/
theorem sortByName_perm (l : List Station) : (sortByName l).Perm l := by
  induction l with
  | nil => rfl
  | cons x xs ih =>
      exact (insertByName_perm x (sortByName xs)).trans (ih.cons x)

/-- Whenever `ensure_point` yields a point, that point is the centroid of
its (non-empty) input. -/
theorem centroidG_of_ensurePoint (g : List Q2) (p : Q2)
    (h : ensurePoint g = some p) : centroidG g = some p := by
  match g with
  | [] => simp [ensurePoint, centroidG] at h
  | [q] =>
      simp only [ensurePoint, Option.some.injEq] at h
      subst h
      simp [centroidG]
  | q₁ :: q₂ :: t => exact h

/-! ## C2: dedup locations -/

/-- C2 (counterexample): the claim says each deduplicated station's
location is the centroid of ALL raw points sharing its name.  With raw
rows `A(0,0), A(0,0), A(2,0)` the union step of `dissolve` collapses the
two coincident `A(0,0)` rows, so the code outputs `A(1,0)`, while the
centroid of all three raw points is `(2/3, 0)`. -/
theorem dedup_all_points_centroid_cex :
    dedupStations [⟨"A", (0, 0)⟩, ⟨"A", (0, 0)⟩, ⟨"A", (2, 0)⟩] = [⟨"A", (1, 0)⟩] ∧
    centroidG ((([⟨"A", (0, 0)⟩, ⟨"A", (0, 0)⟩, ⟨"A", (2, 0)⟩] : List Station).filter
        (fun r => r.name = "A")).map Station.loc) = some (2 / 3, 0) ∧
    ((1 : ℚ), (0 : ℚ)) ≠ ((2 / 3 : ℚ), (0 : ℚ)) := by
  refine ⟨by decide, by decide, by decide⟩

/-- C2 (amended): every station output by the deduplicator has as
location the centroid of the DISTINCT locations among the raw points
sharing its name (`groupUnion`; `dissolve`'s set union collapses
coincident duplicates before the centroid is taken). -/
theorem dedup_centroid_distinct (rows : List Station) (s : Station)
    (h : s ∈ dedupStations rows) :
    centroidG (groupUnion rows s.name) = some s.loc := by
  unfold dedupStations at h
  rcases List.mem_filterMap.mp h with ⟨stub, _, hf⟩
  rcases Option.map_eq_some'.mp hf with ⟨p, hep, hs⟩
  have hname : s.name = stub.name := by rw [← hs]
  have hloc : s.loc = p := by rw [← hs]
  rw [hname, hloc]
  exact centroidG_of_ensurePoint _ _ hep

/-- C2 witness: the spec's own example.  Raw points `A(0,0), A(2,0),
B(5,5)` deduplicate to `A(1,0), B(5,5)`, and the amended theorem applies
to the output station `A(1,0)`. -/
theorem dedup_centroid_distinct_witness :
    dedupStations [⟨"A", (0, 0)⟩, ⟨"A", (2, 0)⟩, ⟨"B", (5, 5)⟩] =
      [⟨"A", (1, 0)⟩, ⟨"B", (5, 5)⟩] ∧
    centroidG (groupUnion [⟨"A", (0, 0)⟩, ⟨"A", (2, 0)⟩, ⟨"B", (5, 5)⟩] "A") =
      some (1, 0) :=
  ⟨by decide,
   dedup_centroid_distinct [⟨"A", (0, 0)⟩, ⟨"A", (2, 0)⟩, ⟨"B", (5, 5)⟩]
     ⟨"A", (1, 0)⟩ (by decide)⟩

/-! ## C9: dedup idempotence -/

/-- With pairwise-distinct names, filtering the rows by one row's name
recovers exactly that row. -/
theorem filter_name_of_nodup (rows : List Station)
    (hnd : (rows.map Station.name).Nodup) (r : Station) (hr : r ∈ rows) :
    rows.filter (fun x => x.name = r.name) = [r] := by
  induction rows with
  | nil => cases hr
  | cons h t ih =>
      rw [List.map_cons, List.nodup_cons] at hnd
      rcases List.mem_cons.mp hr with rfl | hrt
      · have hnone : t.filter (fun x => x.name = r.name) = [] := by
          refine List.filter_eq_nil_iff.mpr (fun x hx => ?_)
          simp only [decide_eq_true_eq]
          intro heq
          exact hnd.1 (heq ▸ List.mem_map_of_mem Station.name hx)
        simp [List.filter_cons, hnone]
      · have hne : ¬(h.name = r.name) := by
          intro heq
          exact hnd.1 (heq ▸ List.mem_map_of_mem Station.name hrt)
        simp only [List.filter_cons, decide_eq_true_eq, if_neg hne]
        exact ih hnd.2 hrt

/-- C9: deduplicating a station list whose names are already unique
returns the same station set (the output is a permutation of the input:
`dissolve` reorders the rows by name but each size-one group keeps its
point unchanged). -/
theorem dedup_idempotent (rows : List Station)
    (hnd : (rows.map Station.name).Nodup) :
    (dedupStations rows).Perm rows := by
  unfold dedupStations
  have hded : (rows.map Station.name).dedup = rows.map Station.name :=
    List.dedup_eq_self.mpr hnd
  rw [hded, List.map_map]
  have hperm := sortByName_perm (rows.map (fun r => Station.mk r.name (0, 0)))
  refine (hperm.filterMap _).trans ?_
  rw [List.filterMap_map]
  have heach : ∀ r ∈ rows,
      ((fun s => (ensurePoint (groupUnion rows s.name)).map (Station.mk s.name)) ∘
        (fun r => Station.mk r.name (0, 0))) r = some r := by
    intro r hr
    have hfil := filter_name_of_nodup rows hnd r hr
    have hical : ([r.loc] : List Q2).dedup = [r.loc] :=
      List.dedup_eq_self.mpr (List.nodup_singleton _)
    simp only [Function.comp_apply, groupUnion, hfil, List.map_cons, List.map_nil,
      hical, ensurePoint, Option.map_some']
  rw [filterMap_id_of_mem rows _ heach]

/-- C9 witness: a two-row set with unique names, out of name order, is
returned as the same set. -/
theorem dedup_idempotent_witness :
    (([⟨"B", (5, 5)⟩, ⟨"A", (0, 0)⟩] : List Station).map Station.name).Nodup ∧
    (dedupStations [⟨"B", (5, 5)⟩, ⟨"A", (0, 0)⟩]).Perm
      [⟨"B", (5, 5)⟩, ⟨"A", (0, 0)⟩] :=
  ⟨by decide, dedup_idempotent [⟨"B", (5, 5)⟩, ⟨"A", (0, 0)⟩] (by decide)⟩

/-! ## C1: clipping and empty cells -/

/-- C1 (counterexample): two stations, the boundary sampling the unit
square (positive area), and a grid also sampling a far-away station's
surroundings.  The far station's raw Voronoi region `[(100, 0)]` is
non-empty, so the filter of lines 195-199 keeps it, yet its intersection
with the boundary is empty: the output contains an empty-geometry cell,
contradicting the claim that empty intersections are discarded. -/
theorem partition_empty_cell_cex :
    partitionBuilder [⟨"A", (0, 0)⟩, ⟨"F", (100, 0)⟩]
        [(0, 0), (1, 0), (0, 1), (1, 1)]
        [(0, 0), (1, 0), (0, 1), (1, 1), (100, 0)] =
      .ok [[(0, 0), (1, 0), (0, 1), (1, 1)], []] ∧
    isEmptyG ([] : Geom) = true := by
  refine ⟨by decide, rfl⟩

/-- C1 (amended): each output cell is a raw Voronoi region intersected
with the city boundary, but the filter of lines 195-199 discards a raw
region for being empty BEFORE clipping; a non-empty raw region whose
intersection with the boundary is empty is retained, so empty-geometry
cells can appear in the output.  The output cells are exactly the
clipped images of the non-empty raw regions. -/
theorem partition_cells_char (stations : List Station) (boundary : Geom)
    (grid : List Q2) (vor : List Geom) (polys : List Geom)
    (hv : voronoiDiagram (stations.map Station.loc) grid = some vor)
    (hp : partitionBuilder stations boundary grid = .ok polys) :
    polys = (vor.filter (fun p => !isEmptyG p)).map (fun p => interG p boundary) ∧
    ∀ g, g ∈ polys ↔
      ∃ raw ∈ vor, isEmptyG raw = false ∧ g = interG raw boundary := by
  simp only [partitionBuilder, hv, Except.ok.injEq] at hp
  have hpoly : polys = (vor.filter (fun p => !isEmptyG p)).map
      (fun p => interG p boundary) := hp.symm
  refine ⟨hpoly, fun g => ?_⟩
  subst hpoly
  constructor
  · intro hg
    rcases List.mem_map.mp hg with ⟨raw, hraw, rfl⟩
    rcases List.mem_filter.mp hraw with ⟨hrawv, hne⟩
    exact ⟨raw, hrawv, by simpa using hne, rfl⟩
  · rintro ⟨raw, hrawv, hne, rfl⟩
    exact List.mem_map_of_mem _ (List.mem_filter.mpr ⟨hrawv, by simpa using hne⟩)

/-- C1 witness: the characterization applied to the counterexample
input. -/
theorem partition_cells_char_witness :
    voronoiDiagram (([⟨"A", (0, 0)⟩, ⟨"F", (100, 0)⟩] : List Station).map Station.loc)
        [(0, 0), (1, 0), (0, 1), (1, 1), (100, 0)] =
      some [[(0, 0), (1, 0), (0, 1), (1, 1)], [(100, 0)]] ∧
    ([[(0, 0), (1, 0), (0, 1), (1, 1)], ([] : Geom)] =
        (([[(0, 0), (1, 0), (0, 1), (1, 1)], [(100, 0)]] : List Geom).filter
            (fun p => !isEmptyG p)).map
          (fun p => interG p [(0, 0), (1, 0), (0, 1), (1, 1)]) ∧
      ∀ g, g ∈ ([[(0, 0), (1, 0), (0, 1), (1, 1)], ([] : Geom)] : List Geom) ↔
        ∃ raw ∈ ([[(0, 0), (1, 0), (0, 1), (1, 1)], [(100, 0)]] : List Geom),
          isEmptyG raw = false ∧ g = interG raw [(0, 0), (1, 0), (0, 1), (1, 1)]) :=
  ⟨by decide,
   partition_cells_char [⟨"A", (0, 0)⟩, ⟨"F", (100, 0)⟩]
     [(0, 0), (1, 0), (0, 1), (1, 1)]
     [(0, 0), (1, 0), (0, 1), (1, 1), (100, 0)]
     [[(0, 0), (1, 0), (0, 1), (1, 1)], [(100, 0)]]
     [[(0, 0), (1, 0), (0, 1), (1, 1)], []]
     (by decide) (by decide)⟩

/-! ## C6 and C7: the error taxonomy against the code -/

/-- Ownership resolution can fail only with the library's own error:
the code contains no validation branch raising anything else. -/
theorem resolveOwners_error_eq (stations : List Station) (polys : List Geom)
    (e : CoreError) (h : resolveOwners stations polys = .error e) :
    e = .libraryError := by
  induction polys with
  | nil => simp [resolveOwners] at h
  | cons poly rest ih =>
      unfold resolveOwners at h
      cases hn : strNearest stations (centroidG poly) with
      | none =>
          rw [hn] at h
          cases h
          rfl
      | some s =>
          rw [hn] at h
          cases hr : resolveOwners stations rest with
          | error e' =>
              rw [hr] at h
              cases h
              exact ih hr
          | ok cells =>
              rw [hr] at h
              cases h

/-- C6 (counterexample): with zero stations the builder does not raise
`InsufficientInputError`: the external Voronoi call rejects the empty
input and its own untyped error propagates.  And a zero-area boundary
(here a single point) is not rejected either: the pipeline returns cells
normally instead of raising `InvalidBoundaryError`. -/
theorem create_voronoi_validation_cex :
    createVoronoi ([] : List Station) [(0, 0), (1, 0)] [(0, 0), (1, 0)] =
      .error .libraryError ∧
    CoreError.libraryError ≠ CoreError.insufficientInput ∧
    createVoronoi [⟨"A", (0, 0)⟩] [(0, 0)] [(0, 0), (1, 0)] =
      .ok [⟨"A", [(0, 0)]⟩] := by
  refine ⟨by decide, by decide, by decide⟩

/-- C6 (amended): `_create_voronoi` performs no input validation at all —
the typed errors `InsufficientInputError` and `InvalidBoundaryError` do
not exist in the code and can never be produced, for any input: a
zero-station input fails only with the library's own error, and a
degenerate boundary is never detected. -/
theorem create_voronoi_no_validation (stations : List Station) (boundary : Geom)
    (grid : List Q2) :
    createVoronoi stations boundary grid ≠ .error .insufficientInput ∧
    createVoronoi stations boundary grid ≠ .error .invalidBoundary := by
  unfold createVoronoi
  cases hp : partitionBuilder stations boundary grid with
  | error e =>
      unfold partitionBuilder at hp
      cases hv : voronoiDiagram (stations.map Station.loc) grid with
      | none =>
          rw [hv] at hp
          cases hp
          exact ⟨by simp, by simp⟩
      | some vor =>
          rw [hv] at hp
          cases hp
  | ok polys =>
      constructor
      · intro h
        cases resolveOwners_error_eq stations polys _ h
      · intro h
        cases resolveOwners_error_eq stations polys _ h

/-- C7 (counterexample): an empty-geometry cell reaching the resolver
does not trigger `InternalInvariantError`: its `POINT EMPTY` centroid is
passed straight to the library nearest query and the library's own
failure propagates instead. -/
theorem resolver_empty_cell_cex :
    resolveOwners [⟨"A", (0, 0)⟩] [([] : Geom)] = .error .libraryError ∧
    CoreError.libraryError ≠ CoreError.internalInvariant := by
  refine ⟨by decide, by decide⟩

/-- C7 (amended): the resolver contains no degeneracy check — it can
never fail with `InternalInvariantError` (the class does not exist in
the code), for any cell list whatsoever. -/
theorem resolver_no_invariant_error (stations : List Station) (polys : List Geom) :
    resolveOwners stations polys ≠ .error .internalInvariant := by
  intro h
  cases resolveOwners_error_eq stations polys _ h

/-! ## C3: ownership by nearest station -/

/-- The nearest query is total on a non-empty station list. -/
theorem strNearest_cons_some (hd : Station) (tl : List Station) (c : Q2) :
    ∃ s, strNearest (hd :: tl) (some c) = some s := by
  rw [strNearest]
  cases strNearest tl (some c) with
  | none => exact ⟨hd, rfl⟩
  | some t =>
      by_cases hc : sqDist c t.loc < sqDist c hd.loc
      · exact ⟨t, by simp [hc]⟩
      · exact ⟨hd, by simp [hc]⟩

/-- Do note: the station returned by the nearest query is a member of the
station list and minimizes the squared (hence the true planar Euclidean)
distance to the query point. -/
theorem strNearest_min (stations : List Station) (c : Q2) :
    ∀ s, strNearest stations (some c) = some s →
      s ∈ stations ∧ ∀ t ∈ stations, sqDist c s.loc ≤ sqDist c t.loc := by
  induction stations with
  | nil => intro s h; simp [strNearest] at h
  | cons hd tl ih =>
      intro s h
      rw [strNearest] at h
      cases hr : strNearest tl (some c) with
      | none =>
          simp only [hr] at h
          cases h
          have htl : tl = [] := by
            cases tl with
            | nil => rfl
            | cons x xs =>
                rcases strNearest_cons_some x xs c with ⟨u, hu⟩
                rw [hu] at hr
                cases hr
          subst htl
          refine ⟨List.mem_singleton.mpr rfl, fun t ht => ?_⟩
          rw [List.mem_singleton.mp ht]
      | some t =>
          simp only [hr] at h
          rcases ih t hr with ⟨htmem, htmin⟩
          by_cases hc : sqDist c t.loc < sqDist c hd.loc
          · rw [if_pos hc] at h
            cases h
            refine ⟨List.mem_cons_of_mem hd htmem, fun u hu => ?_⟩
            rcases List.mem_cons.mp hu with rfl | hut
            · exact le_of_lt hc
            · exact htmin u hut
          · rw [if_neg hc] at h
            cases h
            refine ⟨List.mem_cons_self _ _, fun u hu => ?_⟩
            rcases List.mem_cons.mp hu with rfl | hut
            · exact le_refl _
            · exact le_trans (not_lt.mp hc) (htmin u hut)

/-- Ties are broken deterministically toward the earliest station: every
station listed strictly before the chosen one is strictly farther from
the query point. -/
theorem strNearest_first_argmin (stations : List Station) (c : Q2) :
    ∀ s, strNearest stations (some c) = some s →
      ∃ k, k < stations.length ∧ stations.getD k ⟨"", (0, 0)⟩ = s ∧
        ∀ m < k, sqDist c s.loc < sqDist c (stations.getD m ⟨"", (0, 0)⟩).loc := by
  induction stations with
  | nil => intro s h; simp [strNearest] at h
  | cons hd tl ih =>
      intro s h
      rw [strNearest] at h
      cases hr : strNearest tl (some c) with
      | none =>
          simp only [hr] at h
          cases h
          exact ⟨0, Nat.succ_pos _, rfl, fun m hm => absurd hm (Nat.not_lt_zero m)⟩
      | some t =>
          simp only [hr] at h
          by_cases hc : sqDist c t.loc < sqDist c hd.loc
          · rw [if_pos hc] at h
            cases h
            rcases ih s hr with ⟨k, hk, hget, hmin⟩
            refine ⟨k + 1, Nat.succ_lt_succ hk, hget, fun m hm => ?_⟩
            cases m with
            | zero => exact hc
            | succ m' => exact hmin m' (Nat.lt_of_succ_lt_succ hm)
          · rw [if_neg hc] at h
            cases h
            exact ⟨0, Nat.succ_pos _, rfl, fun m hm => absurd hm (Nat.not_lt_zero m)⟩

/-- Resolved cells line up with the input cells one-to-one, in order. -/
theorem resolveOwners_ok_char (stations : List Station) (polys : List Geom)
    (cells : List OwnedCell) (h : resolveOwners stations polys = .ok cells) :
    cells.length = polys.length ∧
    ∀ k, k < cells.length →
      (cells.getD k ⟨"", []⟩).geometry = polys.getD k [] ∧
      ∃ s, strNearest stations (centroidG (polys.getD k [])) = some s ∧
        (cells.getD k ⟨"", []⟩).name = s.name := by
  induction polys generalizing cells with
  | nil =>
      simp only [resolveOwners] at h
      cases h
      exact ⟨rfl, fun k hk => absurd hk (by simp)⟩
  | cons poly rest ih =>
      unfold resolveOwners at h
      cases hn : strNearest stations (centroidG poly) with
      | none => rw [hn] at h; cases h
      | some s =>
          rw [hn] at h
          cases hr : resolveOwners stations rest with
          | error e => rw [hr] at h; cases h
          | ok cells' =>
              rw [hr] at h
              cases h
              rcases ih cells' hr with ⟨hlen, hall⟩
              refine ⟨by simpa using hlen, fun k hk => ?_⟩
              cases k with
              | zero => exact ⟨rfl, s, hn, rfl⟩
              | succ k' =>
                  exact hall k' (Nat.lt_of_succ_lt_succ (by simpa using hk))

/-- C3: every owned cell produced by the resolver is owned by a station
that is nearest (by planar Euclidean distance) to the cell's centroid
among all stations of the input list, and the tie-break is
deterministic: the choice is the earliest station attaining the minimum
distance. -/
theorem resolver_owner_nearest (stations : List Station) (polys : List Geom)
    (cells : List OwnedCell) (h : resolveOwners stations polys = .ok cells)
    (k : Nat) (hk : k < cells.length) :
    ∃ c s, centroidG (polys.getD k []) = some c ∧
      (cells.getD k ⟨"", []⟩).geometry = polys.getD k [] ∧
      (cells.getD k ⟨"", []⟩).name = s.name ∧
      s ∈ stations ∧
      (∀ t ∈ stations, sqDist c s.loc ≤ sqDist c t.loc) ∧
      ∃ i, i < stations.length ∧ stations.getD i ⟨"", (0, 0)⟩ = s ∧
        ∀ m < i, sqDist c s.loc < sqDist c (stations.getD m ⟨"", (0, 0)⟩).loc := by
  rcases resolveOwners_ok_char stations polys cells h with ⟨_, hall⟩
  rcases hall k hk with ⟨hgeom, s, hn, hname⟩
  cases hc : centroidG (polys.getD k []) with
  | none => rw [hc] at hn; simp [strNearest] at hn
  | some c =>
      rw [hc] at hn
      rcases strNearest_min stations c s hn with ⟨hmem, hmin⟩
      rcases strNearest_first_argmin stations c s hn with ⟨i, hi, hgi, hfirst⟩
      exact ⟨c, s, rfl, hgeom, hname, hmem, hmin, i, hi, hgi, hfirst⟩

/-- C3 witness: two stations equidistant from the cell's centroid; the
resolver picks the first one, which attains the minimum distance. -/
theorem resolver_owner_nearest_witness :
    resolveOwners [⟨"L", (0, 0)⟩, ⟨"R", (2, 0)⟩] [[(1, 0)]] =
      .ok [⟨"L", [(1, 0)]⟩] ∧
    (∃ c s, centroidG (([[(1, 0)]] : List Geom).getD 0 []) = some c ∧
      ((([⟨"L", [(1, 0)]⟩] : List OwnedCell)).getD 0 ⟨"", []⟩).geometry =
        ([[(1, 0)]] : List Geom).getD 0 [] ∧
      ((([⟨"L", [(1, 0)]⟩] : List OwnedCell)).getD 0 ⟨"", []⟩).name = s.name ∧
      s ∈ ([⟨"L", (0, 0)⟩, ⟨"R", (2, 0)⟩] : List Station) ∧
      (∀ t ∈ ([⟨"L", (0, 0)⟩, ⟨"R", (2, 0)⟩] : List Station),
        sqDist c s.loc ≤ sqDist c t.loc) ∧
      ∃ i, i < ([⟨"L", (0, 0)⟩, ⟨"R", (2, 0)⟩] : List Station).length ∧
        ([⟨"L", (0, 0)⟩, ⟨"R", (2, 0)⟩] : List Station).getD i ⟨"", (0, 0)⟩ = s ∧
        ∀ m < i, sqDist c s.loc <
          sqDist c (([⟨"L", (0, 0)⟩, ⟨"R", (2, 0)⟩] : List Station).getD m
            ⟨"", (0, 0)⟩).loc) :=
  ⟨by decide,
   resolver_owner_nearest [⟨"L", (0, 0)⟩, ⟨"R", (2, 0)⟩] [[(1, 0)]]
     [⟨"L", [(1, 0)]⟩] (by decide) 0 (by decide)⟩

/-! ## C8: single-station coverage -/

/-- Membership in an intersection of geometries. -/
theorem mem_interG (a b : Geom) (q : Q2) : q ∈ interG a b ↔ q ∈ a ∧ q ∈ b := by
  simp [interG, List.mem_filter, List.elem_iff]

/-- Deduplicating a single row returns it unchanged. -/
theorem dedupStations_singleton (nm : String) (p : Q2) :
    dedupStations [⟨nm, p⟩] = [⟨nm, p⟩] := by
  unfold dedupStations
  have h1 : (([⟨nm, p⟩] : List Station).map Station.name).dedup = [nm] := by
    simp [List.dedup_eq_self.mpr (List.nodup_singleton _)]
  rw [h1]
  have h2 : sortByName [Station.mk nm (0, 0)] = [Station.mk nm (0, 0)] := rfl
  simp only [List.map_cons, List.map_nil, h2]
  have h3 : groupUnion [⟨nm, p⟩] nm = [p] := by
    have := filter_name_of_nodup [⟨nm, p⟩] (by simp) ⟨nm, p⟩ (by simp)
    simp only [groupUnion, this, List.map_cons, List.map_nil]
    exact List.dedup_eq_self.mpr (List.nodup_singleton _)
  simp [h3, ensurePoint]

/-- The Voronoi diagram of a single generator is one cell covering the
whole sampled plane. -/
theorem voronoiDiagram_singleton (p : Q2) (grid : List Q2) :
    voronoiDiagram [p] grid = some [grid] := by
  unfold voronoiDiagram
  have h1 : ∀ q ∈ grid, nearestIdx [p] q = some 0 := fun q _ => rfl
  have h2 : grid.filter (fun q => nearestIdx [p] q = some 0) = grid :=
    List.filter_eq_self.mpr (fun a ha => by simp [h1 a ha])
  simp [List.range, List.range.loop, h2]

/-- C8: with exactly one station and a usable boundary (non-empty, and
covered by the sampled plane), the composed pipeline returns exactly one
colored cell, whose geometry is the full clipped boundary (same sample
points) and whose owner is that single station. -/
theorem single_station_coverage (nm : String) (p : Q2) (boundary : Geom)
    (grid : List Q2) (hb : boundary ≠ []) (hsub : ∀ q ∈ boundary, q ∈ grid) :
    ∃ g, buildCoverage [⟨nm, p⟩] boundary grid = .ok [⟨nm, g, "#e41a1c"⟩] ∧
      ∀ q, q ∈ g ↔ q ∈ boundary := by
  rcases List.exists_mem_of_ne_nil boundary hb with ⟨b, hbmem⟩
  have hbgrid : b ∈ grid := hsub b hbmem
  have hgridne : grid ≠ [] := List.ne_nil_of_mem hbgrid
  have hgridE : isEmptyG grid = false := by
    cases grid with
    | nil => cases hgridne rfl
    | cons x xs => rfl
  set g : Geom := interG grid boundary with hg
  have hmemg : ∀ q, q ∈ g ↔ q ∈ boundary := by
    intro q
    rw [hg, mem_interG]
    exact ⟨fun h => h.2, fun h => ⟨hsub q h, h⟩⟩
  have hgne : g ≠ [] := List.ne_nil_of_mem ((hmemg b).mpr hbmem)
  have hpb : partitionBuilder [⟨nm, p⟩] boundary grid = .ok [g] := by
    unfold partitionBuilder
    rw [List.map_cons, List.map_nil, voronoiDiagram_singleton]
    simp [hgridE, hg]
  have hgEmp : g.isEmpty = false := List.isEmpty_eq_false.mpr hgne
  have hc : centroidG g =
      some (((g.map Prod.fst).sum / g.length, (g.map Prod.snd).sum / g.length)) := by
    simp [centroidG, hgEmp]
  have hres : resolveOwners [⟨nm, p⟩] [g] = .ok [⟨nm, g⟩] := by
    unfold resolveOwners
    rw [hc]
    simp [strNearest, resolveOwners]
  have hcv : createVoronoi [⟨nm, p⟩] boundary grid = .ok [⟨nm, g⟩] := by
    unfold createVoronoi
    rw [hpb]
    exact hres
  have hcolors : assignColors [g] = ["#e41a1c"] := rfl
  refine ⟨g, ?_, hmemg⟩
  unfold buildCoverage
  rw [dedupStations_singleton, hcv]
  simp only [List.map_cons, List.map_nil, hcolors]
  rfl

/-- C8 witness: a concrete one-station city. -/
theorem single_station_coverage_witness :
    (([(0, 0), (1, 0)] : Geom) ≠ []) ∧
    (∃ g, buildCoverage [⟨"A", (0, 0)⟩] [(0, 0), (1, 0)] [(0, 0), (1, 0), (2, 0)] =
        .ok [⟨"A", g, "#e41a1c"⟩] ∧
      ∀ q, q ∈ g ↔ q ∈ ([(0, 0), (1, 0)] : Geom)) :=
  ⟨by decide,
   single_station_coverage "A" (0, 0) [(0, 0), (1, 0)] [(0, 0), (1, 0), (2, 0)]
     (by decide) (by decide)⟩

/-! ## Greedy coloring: loop lemmas shared by C4, C5 and C10 -/

/-- The loop colors exactly one cell per iteration. -/
theorem assignLoop_length (adj : Nat → Nat → Bool) (n : Nat) :
    (assignLoop adj n).length = n := by
  induction n with
  | zero => rfl
  | succ m ih => simp [assignLoop, ih]

/-- Earlier iterations are stable: the first `m` colors of a longer run
are the `m`-step run. -/
theorem assignLoop_take (adj : Nat → Nat → Bool) (m n : Nat) (h : m ≤ n) :
    (assignLoop adj n).take m = assignLoop adj m := by
  induction n with
  | zero =>
      cases Nat.le_zero.mp h
      rfl
  | succ k ih =>
      rcases Nat.lt_or_ge m (k + 1) with hm | hm
      · have hmk : m ≤ k := Nat.lt_succ_iff.mp hm
        rw [assignLoop, List.take_append_of_le_length
          (by rw [assignLoop_length]; exact hmk), ih hmk]
      · have hmeq : m = k + 1 := Nat.le_antisymm h hm
        subst hmeq
        exact List.take_of_length_le (by rw [assignLoop_length])

/-- The color of cell `i` in any long-enough run is the color chosen at
iteration `i` from the first `i` colors. -/
theorem assignLoop_getD (adj : Nat → Nat → Bool) (n i : Nat) (h : i < n) :
    (assignLoop adj n).getD i 0 = colorOfCell adj (assignLoop adj i) i := by
  induction n with
  | zero => cases Nat.not_lt_zero i h
  | succ k ih =>
      rcases Nat.lt_or_ge i k with hik | hik
      · rw [assignLoop, List.getD_eq_getElem?_getD, List.getElem?_append_left
          (by rw [assignLoop_length]; exact hik), ← List.getD_eq_getElem?_getD,
          ih hik]
      · have hieq : i = k := Nat.le_antisymm (Nat.lt_succ_iff.mp h) hik
        subst hieq
        rw [assignLoop, List.getD_eq_getElem?_getD]
        rw [List.getElem?_append_right (by rw [assignLoop_length])]
        simp [assignLoop_length]

/-- The neighbor colors of cell `i` computed from the final assignment
agree with those computed at iteration `i`. -/
theorem neighborColors_agree (adj : Nat → Nat → Bool) (n i : Nat) (h : i ≤ n) :
    neighborColors adj (assignLoop adj n) i =
      neighborColors adj (assignLoop adj i) i := by
  unfold neighborColors
  refine List.map_congr_left (fun j hj => ?_)
  have hji : j < i := List.mem_range.mp (List.mem_filter.mp hj).1
  rw [assignLoop_getD adj n j (lt_of_lt_of_le hji h),
    assignLoop_getD adj i j hji]

/-- Every chosen color index is within the palette. -/
theorem colorOfCell_lt (adj : Nat → Nat → Bool) (assigned : List Nat) (i : Nat) :
    colorOfCell adj assigned i < VORONOI_COLORS.length := by
  unfold colorOfCell
  cases hf : (List.range VORONOI_COLORS.length).find?
      (fun c => !(neighborColors adj assigned i).contains c) with
  | some c =>
      exact List.mem_range.mp (List.mem_of_find?_eq_some hf)
  | none =>
      exact Nat.mod_lt _ (by decide)

/-- Every color in a run is within the palette. -/
theorem assignLoop_mem_lt (adj : Nat → Nat → Bool) (n : Nat) (x : Nat)
    (hx : x ∈ assignLoop adj n) : x < VORONOI_COLORS.length := by
  induction n with
  | zero => cases hx
  | succ k ih =>
      rw [assignLoop] at hx
      rcases List.mem_append.mp hx with hx | hx
      · exact ih hx
      · rw [List.mem_singleton.mp hx]
        exact colorOfCell_lt adj _ k

/-- A successful palette search returns the least free color. -/
theorem find?_range_least (k c : Nat) (p : Nat → Bool)
    (h : (List.range k).find? p = some c) :
    p c = true ∧ c < k ∧ ∀ d < c, p d = false := by
  rcases List.find?_eq_some.mp h with ⟨hpc, as, bs, hsplit, hall⟩
  have hck : c < k := List.mem_range.mp (List.mem_of_find?_eq_some h)
  have hlen : as.length < k := by
    have := congrArg List.length hsplit
    simp [List.length_range] at this
    omega
  have hc_as : c = as.length := by
    have hget : (List.range k)[as.length]? = some c := by
      rw [hsplit, List.getElem?_append_right (le_refl _)]
      simp
    rw [List.getElem?_range hlen] at hget
    exact (Option.some.injEq _ _ ▸ hget.symm : _)
  refine ⟨hpc, hck, fun d hd => ?_⟩
  have hd_as : d ∈ as := by
    have hget : (List.range k)[d]? = some d :=
      List.getElem?_range (lt_trans hd hck)
    rw [hsplit, List.getElem?_append_left (hc_as ▸ hd)] at hget
    rcases List.getElem?_eq_some.mp hget with ⟨hlt, hda⟩
    exact hda ▸ List.getElem_mem hlt
  have := hall d hd_as
  simpa using this

/-- With fewer cells than palette colors already used, a free color
always exists. -/
theorem exists_free_color (nb : List Nat) (h : nb.length < VORONOI_COLORS.length) :
    ∃ c, (List.range VORONOI_COLORS.length).find? (fun c => !nb.contains c) =
      some c := by
  cases hf : (List.range VORONOI_COLORS.length).find? (fun c => !nb.contains c) with
  | some c => exact ⟨c, rfl⟩
  | none =>
      exfalso
      have hall := List.find?_eq_none.mp hf
      have hsub : List.range VORONOI_COLORS.length ⊆ nb := by
        intro d hd
        have hcontains := hall d hd
        simp only [Bool.not_eq_true', Bool.not_eq_false] at hcontains
        exact List.elem_iff.mp hcontains
      have hnd : (List.range VORONOI_COLORS.length).Nodup := List.nodup_range _
      have hle := (hnd.subperm hsub).length_le
      rw [List.length_range] at hle
      omega

/-- The number of already-colored neighbors of cell `i` is at most `i`. -/
theorem neighborColors_length_le (adj : Nat → Nat → Bool) (assigned : List Nat)
    (i : Nat) : (neighborColors adj assigned i).length ≤ i := by
  unfold neighborColors
  rw [List.length_map]
  calc ((List.range i).filter (fun j => adj i j)).length
      ≤ (List.range i).length := List.length_filter_le _ _
    _ = i := List.length_range i

/-- Each iteration picks either the first free palette color or the
fallback `i % paletteSize`. -/
theorem colorOfCell_spec (adj : Nat → Nat → Bool) (assigned : List Nat) (i : Nat) :
    (∃ c, (List.range VORONOI_COLORS.length).find?
        (fun c => !(neighborColors adj assigned i).contains c) = some c ∧
      colorOfCell adj assigned i = c) ∨
    ((List.range VORONOI_COLORS.length).find?
        (fun c => !(neighborColors adj assigned i).contains c) = none ∧
      colorOfCell adj assigned i = i % VORONOI_COLORS.length) := by
  cases hf : (List.range VORONOI_COLORS.length).find?
      (fun c => !(neighborColors adj assigned i).contains c) with
  | some c => exact Or.inl ⟨c, rfl, by unfold colorOfCell; rw [hf]⟩
  | none => exact Or.inr ⟨rfl, by unfold colorOfCell; rw [hf]⟩

/-! ## C10: shape of the color assignment -/

/-- C10: the colorer returns exactly one color per input polygon, every
returned color is drawn from the fixed eight-color palette, and the
empty input yields the empty list. -/
theorem colorer_output_wf (gdf : List Geom) :
    (assignColors gdf).length = gdf.length ∧
    (assignColors gdf).all (fun c => VORONOI_COLORS.contains c) = true ∧
    assignColors ([] : List Geom) = [] := by
  refine ⟨?_, ?_, rfl⟩
  · unfold assignColors assignColorIdx
    rw [List.length_map, assignLoop_length]
  · rw [List.all_eq_true]
    intro c hc
    unfold assignColors at hc
    rcases List.mem_map.mp hc with ⟨idx, hidx, rfl⟩
    have hlt : idx < VORONOI_COLORS.length := assignLoop_mem_lt _ _ idx hidx
    have hgetD : VORONOI_COLORS.getD idx "" = VORONOI_COLORS[idx] := by
      rw [List.getD_eq_getElem?_getD, List.getElem?_eq_getElem hlt]
      rfl
    rw [hgetD]
    exact List.elem_iff.mpr (List.getElem_mem hlt)

/-! ## C5: greedy choice and graceful fallback -/

/-- C5: the colorer is total (one color per cell, never an error), and
cell `i` receives either the lowest palette index not used by its
already-colored neighbors, or — when all palette indices are taken —
the fallback `i % paletteSize`. -/
theorem colorer_lowest_free_or_fallback (gdf : List Geom) (i : Nat)
    (h : i < gdf.length) :
    (assignColorIdx gdf).length = gdf.length ∧
    (((neighborColors (adjOf gdf) (assignColorIdx gdf) i).contains
        ((assignColorIdx gdf).getD i 0) = false ∧
      ∀ d < (assignColorIdx gdf).getD i 0,
        (neighborColors (adjOf gdf) (assignColorIdx gdf) i).contains d = true) ∨
     ((∀ d < VORONOI_COLORS.length,
        (neighborColors (adjOf gdf) (assignColorIdx gdf) i).contains d = true) ∧
      (assignColorIdx gdf).getD i 0 = i % VORONOI_COLORS.length)) := by
  have hlen : (assignColorIdx gdf).length = gdf.length := by
    unfold assignColorIdx
    exact assignLoop_length _ _
  refine ⟨hlen, ?_⟩
  have hgetD : (assignColorIdx gdf).getD i 0 =
      colorOfCell (adjOf gdf) (assignLoop (adjOf gdf) i) i :=
    assignLoop_getD _ _ i h
  have hagree : neighborColors (adjOf gdf) (assignColorIdx gdf) i =
      neighborColors (adjOf gdf) (assignLoop (adjOf gdf) i) i :=
    neighborColors_agree _ _ i (le_of_lt h)
  rw [hgetD, hagree]
  rcases colorOfCell_spec (adjOf gdf) (assignLoop (adjOf gdf) i) i with
    ⟨c, hf, hc⟩ | ⟨hf, hc⟩
  · left
    rcases find?_range_least _ c _ hf with ⟨hpc, _, hleast⟩
    rw [hc]
    refine ⟨by simpa using hpc, fun d hd => ?_⟩
    have := hleast d hd
    simpa using this
  · right
    rw [hc]
    refine ⟨fun d hd => ?_, rfl⟩
    have := List.find?_eq_none.mp hf d (List.mem_range.mpr hd)
    simpa using this

/-! ## C4: adjacent cells get different colors -/

/-- Geometry adjacency is symmetric (the touch/intersect predicates
are). -/
theorem adjacentG_symm (a b : Geom) : adjacentG a b = adjacentG b a := by
  unfold adjacentG
  by_cases h : ∃ p, p ∈ a ∧ p ∈ b
  · rcases h with ⟨p, hpa, hpb⟩
    rw [List.any_eq_true.mpr ⟨p, hpa, List.elem_iff.mpr hpb⟩,
      List.any_eq_true.mpr ⟨p, hpb, List.elem_iff.mpr hpa⟩]
  · have h1 : a.any (fun p => b.contains p) = false := by
      rw [Bool.eq_false_iff]
      intro hcontra
      rcases List.any_eq_true.mp hcontra with ⟨p, hpa, hpb⟩
      exact h ⟨p, hpa, List.elem_iff.mp hpb⟩
    have h2 : b.any (fun p => a.contains p) = false := by
      rw [Bool.eq_false_iff]
      intro hcontra
      rcases List.any_eq_true.mp hcontra with ⟨p, hpb, hpa⟩
      exact h ⟨p, List.elem_iff.mp hpa, hpb⟩
    rw [h1, h2]

/-- Cell adjacency is symmetric. -/
theorem adjOf_symm (gdf : List Geom) (i j : Nat) :
    adjOf gdf i j = adjOf gdf j i := by
  unfold adjOf
  exact adjacentG_symm _ _

/-- When the palette search succeeds for cell `i`, its color differs
from the color of every earlier adjacent cell. -/
theorem coloring_step_ne (gdf : List Geom) (i j : Nat) (hi : i < gdf.length)
    (hj : j < i) (hadj : adjOf gdf i j = true) (hnf : fallbackAt gdf i = false) :
    (assignColorIdx gdf).getD i 0 ≠ (assignColorIdx gdf).getD j 0 := by
  have hcj_mem : (assignColorIdx gdf).getD j 0 ∈
      neighborColors (adjOf gdf) (assignColorIdx gdf) i :=
    List.mem_map_of_mem _
      (List.mem_filter.mpr ⟨List.mem_range.mpr hj, by simpa using hadj⟩)
  unfold fallbackAt at hnf
  cases hf : (List.range VORONOI_COLORS.length).find?
      (fun c => !(neighborColors (adjOf gdf) (assignColorIdx gdf) i).contains c) with
  | none => rw [hf] at hnf; cases hnf
  | some c =>
      have hfree : (neighborColors (adjOf gdf) (assignColorIdx gdf) i).contains c
          = false := by
        have := List.find?_some hf
        simpa using this
      have hci : (assignColorIdx gdf).getD i 0 = c := by
        have hgetD : (assignColorIdx gdf).getD i 0 =
            colorOfCell (adjOf gdf) (assignLoop (adjOf gdf) i) i :=
          assignLoop_getD _ _ i hi
        have hagree : neighborColors (adjOf gdf) (assignColorIdx gdf) i =
            neighborColors (adjOf gdf) (assignLoop (adjOf gdf) i) i :=
          neighborColors_agree _ _ i (le_of_lt hi)
        rw [hagree] at hf
        rcases colorOfCell_spec (adjOf gdf) (assignLoop (adjOf gdf) i) i with
          ⟨c', hf', hc'⟩ | ⟨hf', _⟩
        · rw [hf'] at hf
          cases hf
          rw [hgetD, hc']
        · rw [hf'] at hf
          cases hf
      intro heq
      rw [← heq, hci] at hcj_mem
      have hct : (neighborColors (adjOf gdf) (assignColorIdx gdf) i).contains c
          = true := by
        simpa using List.elem_iff.mpr hcj_mem
      rw [hct] at hfree
      cases hfree

/-- With at most as many cells as palette colors the fallback can never
fire. -/
theorem fallbackAt_false_of_small (gdf : List Geom) (i : Nat)
    (hi : i < gdf.length) (hs : gdf.length ≤ VORONOI_COLORS.length) :
    fallbackAt gdf i = false := by
  unfold fallbackAt
  rcases exists_free_color (neighborColors (adjOf gdf) (assignColorIdx gdf) i)
      (lt_of_le_of_lt (neighborColors_length_le _ _ i)
        (lt_of_lt_of_le hi hs)) with ⟨c, hc⟩
  rw [hc]
  rfl

/-- The output color string of a cell is the palette entry at its color
index. -/
theorem assignColors_getD (gdf : List Geom) (i : Nat) (hi : i < gdf.length) :
    (assignColors gdf).getD i "" =
      VORONOI_COLORS.getD ((assignColorIdx gdf).getD i 0) "" := by
  have hlen : i < (assignColorIdx gdf).length := by
    unfold assignColorIdx
    rw [assignLoop_length]
    exact hi
  unfold assignColors
  rw [List.getD_eq_getElem?_getD, List.getElem?_map,
    List.getElem?_eq_getElem hlen]
  simp [List.getD_eq_getElem?_getD, List.getElem?_eq_getElem hlen]

/-- Distinct in-palette indices yield distinct color strings. -/
theorem palette_getD_inj : ∀ a < VORONOI_COLORS.length, ∀ b < VORONOI_COLORS.length,
    a ≠ b → VORONOI_COLORS.getD a "" ≠ VORONOI_COLORS.getD b "" := by decide

/-- The color index assigned to cell `i` is within the palette. -/
theorem assignColorIdx_lt (gdf : List Geom) (i : Nat) (hi : i < gdf.length) :
    (assignColorIdx gdf).getD i 0 < VORONOI_COLORS.length := by
  unfold assignColorIdx
  rw [assignLoop_getD _ _ i hi]
  exact colorOfCell_lt _ _ i

/-- C4: two distinct cells whose geometries touch or intersect receive
different color strings — unconditionally when the input has at most as
many cells as palette colors (8), and in general whenever the fallback
branch did not fire for the later of the two cells. -/
theorem coloring_adjacent_distinct (gdf : List Geom) (i j : Nat)
    (hi : i < gdf.length) (hj : j < gdf.length) (hne : i ≠ j)
    (hadj : adjOf gdf i j = true) :
    (gdf.length ≤ VORONOI_COLORS.length →
      (assignColors gdf).getD i "" ≠ (assignColors gdf).getD j "") ∧
    (fallbackAt gdf (max i j) = false →
      (assignColors gdf).getD i "" ≠ (assignColors gdf).getD j "") := by
  have hcore : fallbackAt gdf (max i j) = false →
      (assignColors gdf).getD i "" ≠ (assignColors gdf).getD j "" := by
    intro hnf
    have hstr : ∀ a b : Nat, a < gdf.length → b < gdf.length →
        (assignColorIdx gdf).getD a 0 ≠ (assignColorIdx gdf).getD b 0 →
        (assignColors gdf).getD a "" ≠ (assignColors gdf).getD b "" := by
      intro a b ha hb hne'
      rw [assignColors_getD gdf a ha, assignColors_getD gdf b hb]
      exact palette_getD_inj _ (assignColorIdx_lt gdf a ha) _
        (assignColorIdx_lt gdf b hb) hne'
    rcases Nat.lt_or_gt_of_ne hne with hij | hij
    · have hmax : max i j = j := Nat.max_eq_right (le_of_lt hij)
      rw [hmax] at hnf
      have hadj' : adjOf gdf j i = true := by rw [← adjOf_symm]; exact hadj
      exact fun heq =>
        coloring_step_ne gdf j i hj hij hadj' hnf
          (by rw [assignColors_getD gdf i hi, assignColors_getD gdf j hj] at heq
              by_contra hne'
              exact hne' (by
                by_contra hne''
                exact palette_getD_inj _ (assignColorIdx_lt gdf j hj) _
                  (assignColorIdx_lt gdf i hi) hne'' heq.symm))
    · have hmax : max i j = i := Nat.max_eq_left (le_of_lt hij)
      rw [hmax] at hnf
      exact hstr i j hi hj (coloring_step_ne gdf i j hi hij hadj hnf)
  refine ⟨fun hsmall => hcore ?_, hcore⟩
  exact fallbackAt_false_of_small gdf (max i j)
    (by rcases Nat.lt_or_gt_of_ne hne with hij | hij
        · rw [Nat.max_eq_right (le_of_lt hij)]; exact hj
        · rw [Nat.max_eq_left (le_of_lt hij)]; exact hi) hsmall

/-- C5 witness: two mutually intersecting cells; cell 1 receives the
lowest free color (or, vacuously, the fallback). -/
theorem colorer_lowest_free_or_fallback_witness :
    1 < ([[(0, 0)], [(0, 0)]] : List Geom).length ∧
    ((assignColorIdx [[(0, 0)], [(0, 0)]]).length =
        ([[(0, 0)], [(0, 0)]] : List Geom).length ∧
      (((neighborColors (adjOf [[(0, 0)], [(0, 0)]])
            (assignColorIdx [[(0, 0)], [(0, 0)]]) 1).contains
          ((assignColorIdx [[(0, 0)], [(0, 0)]]).getD 1 0) = false ∧
        ∀ d < (assignColorIdx [[(0, 0)], [(0, 0)]]).getD 1 0,
          (neighborColors (adjOf [[(0, 0)], [(0, 0)]])
            (assignColorIdx [[(0, 0)], [(0, 0)]]) 1).contains d = true) ∨
       ((∀ d < VORONOI_COLORS.length,
          (neighborColors (adjOf [[(0, 0)], [(0, 0)]])
            (assignColorIdx [[(0, 0)], [(0, 0)]]) 1).contains d = true) ∧
        (assignColorIdx [[(0, 0)], [(0, 0)]]).getD 1 0 =
          1 % VORONOI_COLORS.length))) :=
  ⟨by decide, colorer_lowest_free_or_fallback [[(0, 0)], [(0, 0)]] 1 (by decide)⟩

/-- C4 witness: two mutually intersecting cells receive distinct colors
(the input is within the palette size and no fallback fires). -/
theorem coloring_adjacent_distinct_witness :
    adjOf [[(0, 0)], [(0, 0)]] 0 1 = true ∧
    ((([[(0, 0)], [(0, 0)]] : List Geom).length ≤ VORONOI_COLORS.length →
      (assignColors [[(0, 0)], [(0, 0)]]).getD 0 "" ≠
        (assignColors [[(0, 0)], [(0, 0)]]).getD 1 "") ∧
     (fallbackAt [[(0, 0)], [(0, 0)]] (max 0 1) = false →
      (assignColors [[(0, 0)], [(0, 0)]]).getD 0 "" ≠
        (assignColors [[(0, 0)], [(0, 0)]]).getD 1 "")) :=
  ⟨by decide,
   coloring_adjacent_distinct [[(0, 0)], [(0, 0)]] 0 1 (by decide) (by decide)
     (by decide) (by decide)⟩

end ConcreteEvaluation

end MetroVoronoi
